import Mathlib

/-!
Verification of the WareCost cost-attribution engine (`warecost.py`) and its
HTTP boundary (`api.py`) against the natural-language specification.

The Python code is shallowly embedded: floats are modelled as exact rationals
(`ℚ`), Python strings as `String`/`List Char` with a faithful `str.split`
implementation, Python dicts as insertion-ordered association lists, and
Python's banker's rounding (`round(x, n)`, half-to-even) as `pyRound`.
Mutating methods are modelled as state-passing functions returning the new
engine state.
-/

namespace WareCost

/-! ## Python primitives -/

/-- Round-half-to-even of a rational to an integer, the behaviour of Python's
builtin `round` (banker's rounding). -/
def rne (x : ℚ) : ℤ :=
  let n : ℤ := ⌊x⌋
  if x - n < 1/2 then n
  else if 1/2 < x - n then n + 1
  else if n % 2 = 0 then n else n + 1

/-- Python's `round(x, nd)` for `nd` decimal digits (half-to-even). -/
def pyRound (nd : ℕ) (x : ℚ) : ℚ := (rne (x * 10 ^ nd) : ℚ) / 10 ^ nd

/-- Whether `pat` is a prefix of the character list `s` (Boolean, executable). -/
def isPrefixL : List Char → List Char → Bool
  | [], _ => true
  | _ :: _, [] => false
  | a :: as, b :: bs => a = b && isPrefixL as bs

/-- Worker for `splitL`: scans `s` left to right, accumulating the current
chunk (reversed) in `cur`; on each leftmost non-overlapping occurrence of
`sep` emits the chunk.  Fuel-based structural recursion so that the kernel
can evaluate it on concrete strings. -/
def splitGo (sep : List Char) : ℕ → List Char → List Char → List (List Char)
  | 0, cur, s => [cur.reverse ++ s]
  | _ + 1, cur, [] => [cur.reverse]
  | fuel + 1, cur, c :: rest =>
    if isPrefixL sep (c :: rest) then
      cur.reverse :: splitGo sep fuel [] ((c :: rest).drop sep.length)
    else
      splitGo sep fuel (c :: cur) rest

/-- Python's `s.split(sep)` for a non-empty separator: greedy left-to-right
non-overlapping occurrences; adjacent occurrences yield empty chunks. -/
def splitL (sep s : List Char) : List (List Char) :=
  splitGo sep (s.length + 1) [] s

/-- Python's `s.strip()`: drop leading and trailing whitespace. -/
def trimL (s : List Char) : List Char :=
  ((s.dropWhile Char.isWhitespace).reverse.dropWhile Char.isWhitespace).reverse

/-- Truthiness of Python's `a or b` where `a : Optional[str]` and `b : str`:
`None` and the empty string are falsy. -/
def pyOrStr (a : Option String) (b : String) : String :=
  match a with
  | some s => if s = "" then b else s
  | none => b

/-- Truthiness of Python's `a or b` where both operands are `Optional[str]`. -/
def pyOrOpt (a b : Option String) : Option String :=
  match a with
  | some s => if s = "" then b else some s
  | none => b

/-! ## Record normalizer (`QueryRecord`, warecost.py lines 13-46) -/

/-- `QueryRecord` dataclass: one normalized query observation. -/
structure QueryRecord where
  query_id : String
  query_text : String
  user_name : String
  warehouse_name : String
  credits_used : ℚ
  bytes_scanned : ℤ
  execution_time_ms : ℤ
  start_time : String
  query_tag : String
deriving DecidableEq

/-- `QueryRecord._extract(prefix)`: when `pat` occurs in the tag, Python
returns `query_tag.split(pat)[1].split(";")[0].strip()` — the text between
the first and second occurrence of `pat` (or to the end of the tag when it
occurs once), cut at the first `;`, stripped; otherwise `None`.
`splitL` returns at least two chunks exactly when `pat` occurs in the tag. -/
def extractTag (tag pat : String) : Option String :=
  match splitL pat.data tag.data with
  | _ :: seg :: _ => some (trimL ((splitL [';'] seg).headD seg)).asString
  | _ => none

/-- The user-name fallback inside `QueryRecord.team`:
`user_name.split("_")[0] if "_" in user_name else "unattributed"`. -/
def teamFallback (q : QueryRecord) : String :=
  match splitL ['_'] q.user_name.data with
  | f :: _ :: _ => f.asString
  | _ => "unattributed"

/-- `QueryRecord.team`: `self._extract("team=") or (fallback)`. -/
def QueryRecord.team (q : QueryRecord) : String :=
  pyOrStr (extractTag q.query_tag "team=") (teamFallback q)

/-- `QueryRecord.dbt_model`: `self._extract("dbt:") or self._extract("model=")`. -/
def QueryRecord.dbt_model (q : QueryRecord) : Option String :=
  pyOrOpt (extractTag q.query_tag "dbt:") (extractTag q.query_tag "model=")

/-- `QueryRecord.dag_id`: `self._extract("dag=")`. -/
def QueryRecord.dag_id (q : QueryRecord) : Option String :=
  extractTag q.query_tag "dag="

/-- `QueryRecord.cost_usd`: `round(self.credits_used * 3.0, 4)`.  Note the
source hardcodes the factor `3.0`; it does not consult any engine's
`credit_price`. -/
def QueryRecord.cost_usd (q : QueryRecord) : ℚ :=
  pyRound 4 (q.credits_used * 3)

/-! ## Cost engine state (warecost.py lines 49-60) -/

/-- `CostEngine` state: conversion rate, loaded batch, and the per-team budget
dict (modelled as an insertion-ordered association list, as Python dicts
preserve insertion order). -/
structure CostEngine where
  credit_price : ℚ
  queries : List QueryRecord
  budgets : List (String × ℚ)
deriving DecidableEq

/-- `CostEngine(credit_price)` constructor: empty batch, empty budgets. -/
def CostEngine.new (credit_price : ℚ) : CostEngine :=
  CostEngine.mk credit_price [] []

/-- First value stored under key `k` in an association list (Python dict
lookup; keys are unique in any list built through `dictSet`). -/
def lookupD {α : Type} (m : List (String × α)) (k : String) : Option α :=
  (m.find? (fun p => p.1 = k)).map (fun p => p.2)

/-- Python dict assignment `m[k] = v`: overwrite in place when the key exists
(keeping its position), otherwise append at the end. -/
def dictSet (m : List (String × ℚ)) (k : String) (v : ℚ) : List (String × ℚ) :=
  if m.any (fun p => p.1 = k) then
    m.map (fun p => if p.1 = k then (k, v) else p)
  else m ++ [(k, v)]

/-- `CostEngine.set_budget(team, amount)`: `self.budgets[team] = amount`. -/
def CostEngine.set_budget (e : CostEngine) (team : String) (amount : ℚ) : CostEngine :=
  CostEngine.mk e.credit_price e.queries (dictSet e.budgets team amount)

/-! ## Raw records and `load` (warecost.py lines 55-57, api.py lines 21-29)

`load` builds `QueryRecord(**r)` for every raw mapping `r`.  The dataclass
constructor raises `TypeError` when a required field is missing or an
unexpected keyword is present (no runtime type checks beyond that), and the
whole list comprehension is evaluated before it is assigned to
`self.queries`. -/

/-- A raw JSON-object record: each known field either present or absent, plus
any unknown keys it carries. -/
structure RawRecord where
  query_id : Option String
  query_text : Option String
  user_name : Option String
  warehouse_name : Option String
  credits_used : Option ℚ
  bytes_scanned : Option ℤ
  execution_time_ms : Option ℤ
  start_time : Option String
  query_tag : Option String
  extraKeys : List String
deriving DecidableEq

/-- The validation failure of `QueryRecord(**r)` (Python `TypeError`). -/
inductive LoadError where
  | missingField (nm : String)
  | unexpectedField (nm : String)
deriving DecidableEq

/-- `QueryRecord(**r)`: fails when `r` has an unknown key or lacks a required
field; `query_tag` defaults to the empty string. -/
def normalizeRecord (r : RawRecord) : Except LoadError QueryRecord :=
  match r.extraKeys with
  | k :: _ => .error (.unexpectedField k)
  | [] =>
    match r.query_id with
    | none => .error (.missingField "query_id")
    | some qid =>
      match r.query_text with
      | none => .error (.missingField "query_text")
      | some qtext =>
        match r.user_name with
        | none => .error (.missingField "user_name")
        | some uname =>
          match r.warehouse_name with
          | none => .error (.missingField "warehouse_name")
          | some wname =>
            match r.credits_used with
            | none => .error (.missingField "credits_used")
            | some credits =>
              match r.bytes_scanned with
              | none => .error (.missingField "bytes_scanned")
              | some bytes =>
                match r.execution_time_ms with
                | none => .error (.missingField "execution_time_ms")
                | some ms =>
                  match r.start_time with
                  | none => .error (.missingField "start_time")
                  | some st =>
                    .ok (QueryRecord.mk qid qtext uname wname credits bytes ms st
                          (r.query_tag.getD ""))

/-- The list comprehension `[QueryRecord(**r) for r in records]`: normalizes
every record, failing on the first invalid one. -/
def normalizeAll : List RawRecord → Except LoadError (List QueryRecord)
  | [] => .ok []
  | r :: rest =>
    match normalizeRecord r with
    | .error e => .error e
    | .ok q =>
      match normalizeAll rest with
      | .error e => .error e
      | .ok qs => .ok (q :: qs)

/-- `CostEngine.load(records)`: the comprehension is evaluated in full before
being assigned to `self.queries`, so a failing load leaves the engine as it
was; on success the batch is replaced wholesale and the count returned. -/
def CostEngine.load (e : CostEngine) (records : List RawRecord) :
    CostEngine × Except LoadError ℕ :=
  match normalizeAll records with
  | .error err => (e, .error err)
  | .ok qs => (CostEngine.mk e.credit_price qs e.budgets, .ok qs.length)

/-! ## Breakdown (warecost.py lines 62-75) -/

/-- `getattr(q, dim, None)` for the five whitelisted dimension names of §6
(the only ones the boundary lets through to `breakdown`). -/
def dimAttr (q : QueryRecord) : String → Option String
  | "team" => some q.team
  | "warehouse_name" => some q.warehouse_name
  | "dbt_model" => q.dbt_model
  | "dag_id" => q.dag_id
  | "user_name" => some q.user_name
  | _ => none

/-- `getattr(q, dim, None) or "unattributed"`: `None` and the empty string
both fall back to the literal key. -/
def groupKey (q : QueryRecord) (dim : String) : String :=
  match dimAttr q dim with
  | some s => if s = "" then "unattributed" else s
  | none => "unattributed"

/-- `groups.setdefault(key, []).append(q)`: append `q` to the group of `k`,
creating the group at the end on first sight of the key. -/
def addToGroups (gs : List (String × List QueryRecord)) (k : String) (q : QueryRecord) :
    List (String × List QueryRecord) :=
  if gs.any (fun p => p.1 = k) then
    gs.map (fun p => if p.1 = k then (p.1, p.2 ++ [q]) else p)
  else gs ++ [(k, [q])]

/-- The grouping loop of `breakdown`, in batch order. -/
def groupsOf (qs : List QueryRecord) (dim : String) : List (String × List QueryRecord) :=
  qs.foldl (fun gs q => addToGroups gs (groupKey q dim) q) []

/-- `sum(q.credits_used for q in qs)`. -/
def sumCredits (qs : List QueryRecord) : ℚ :=
  (qs.map (fun q => q.credits_used)).sum

/-- One value of the `breakdown` result dict. -/
structure BreakdownEntry where
  queries : ℕ
  credits : ℚ
  cost_usd : ℚ
  bytes : ℤ
deriving DecidableEq

/-- `CostEngine.breakdown(dim)`: group, sort groups by descending total
credits (Python's `sorted` is stable; `insertionSort` with a total preorder
is the same stable sort), then aggregate each group. -/
def CostEngine.breakdown (e : CostEngine) (dim : String) : List (String × BreakdownEntry) :=
  let sortedGroups := ((groupsOf e.queries dim).insertionSort
    (fun a b => sumCredits b.2 ≤ sumCredits a.2))
  sortedGroups.map (fun p =>
    let tc := sumCredits p.2
    (p.1, BreakdownEntry.mk p.2.length (pyRound 4 tc) (pyRound 2 (tc * e.credit_price))
      ((p.2.map (fun q => q.bytes_scanned)).sum)))

/-! ## Anomalies (warecost.py lines 77-90)

`statistics.mean` and `statistics.stdev` compute the exact sample mean and
the Bessel-corrected sample standard deviation; the standard deviation is
`Real.sqrt` of the rational sample variance, so the strict comparison
`(cost - mu) / sd > z` and the rounding `round(.., 2)` of the z-score are
realized by the executable rational functions below and proved equivalent to
the real-number formulas in the theorems. -/

/-- `statistics.mean`. -/
def listMean (xs : List ℚ) : ℚ := xs.sum / xs.length

/-- The sample variance with Bessel's correction (`statistics.stdev` squared). -/
def sampleVar (xs : List ℚ) : ℚ :=
  ((xs.map (fun x => (x - listMean xs) ^ 2)).sum) / ((xs.length : ℚ) - 1)

/-- Executable decision of `d / sqrt v > z` for `v > 0`, by squaring. -/
def zGTsqrt (d z v : ℚ) : Bool :=
  if 0 ≤ z then decide (0 < d) && decide (z ^ 2 * v < d ^ 2)
  else decide (0 ≤ d) || decide (d ^ 2 < z ^ 2 * v)

/-- The half-even nearest integer to `Real.sqrt r` for `0 ≤ r`, computed on
rationals: `Nat.sqrt (num * den) / den` is the floor of the square root, and
the tie/side test compares `4r` with `(2n+1)^2`. -/
def rneSqrtQ (r : ℚ) : ℕ :=
  let n := Nat.sqrt (r.num.toNat * r.den) / r.den
  if 4 * r < ((2 * n + 1 : ℕ) : ℚ) ^ 2 then n
  else if ((2 * n + 1 : ℕ) : ℚ) ^ 2 < 4 * r then n + 1
  else if n % 2 = 0 then n else n + 1

/-- `round((d / sqrt v), 2)` (Python half-even rounding), computed on
rationals: `|100 * d / sqrt v| = sqrt (10000 d^2 / v)`. -/
def zRound2 (d v : ℚ) : ℚ :=
  let m := rneSqrtQ (10000 * d ^ 2 / v)
  if 0 ≤ d then (m : ℚ) / 100 else -((m : ℚ) / 100)

/-- One element of the `anomalies` result list. -/
structure AnomalyEntry where
  query_id : String
  cost_usd : ℚ
  z_score : ℚ
  team : String
  warehouse : String
deriving DecidableEq

/-- The dict built for a flagged query. -/
def anomalyEntry (mu v : ℚ) (q : QueryRecord) : AnomalyEntry :=
  AnomalyEntry.mk q.query_id q.cost_usd (zRound2 (q.cost_usd - mu) v) q.team q.warehouse_name

/-- `CostEngine.anomalies(z_thresh)`: guard on fewer than 3 records, guard on
zero standard deviation, filter by strict one-sided z-score, then stable-sort
descending by the (rounded) reported z-score. -/
def CostEngine.anomalies (e : CostEngine) (zThresh : ℚ) : List AnomalyEntry :=
  if e.queries.length < 3 then []
  else
    let costs := e.queries.map QueryRecord.cost_usd
    let mu := listMean costs
    let v := sampleVar costs
    if v = 0 then []
    else
      ((e.queries.filter (fun q => zGTsqrt (q.cost_usd - mu) zThresh v)).map
        (anomalyEntry mu v)).insertionSort (fun a b => b.z_score ≤ a.z_score)

/-! ## Budget alerts and summary (warecost.py lines 92-109) -/

/-- One element of the `budget_alerts` result list. -/
structure Alert where
  team : String
  budget : ℚ
  spent : ℚ
  pct : ℚ
  status : String
deriving DecidableEq

/-- `by_team.get(team, {}).get("cost_usd", 0)`. -/
def teamSpent (byTeam : List (String × BreakdownEntry)) (team : String) : ℚ :=
  match lookupD byTeam team with
  | some entry => entry.cost_usd
  | none => 0

/-- The loop body of `budget_alerts` for one `(team, limit)` entry:
`pct = round(spent / limit * 100, 1) if limit > 0 else 0`, and an alert is
produced only when `pct >= 80`, with status `"OVER"` from 100 and
`"WARNING"` otherwise. -/
def alertOf (byTeam : List (String × BreakdownEntry)) (p : String × ℚ) : Option Alert :=
  let spent := teamSpent byTeam p.1
  let pct := if 0 < p.2 then pyRound 1 (spent / p.2 * 100) else 0
  if 80 ≤ pct then
    some (Alert.mk p.1 p.2 spent pct (if 100 ≤ pct then "OVER" else "WARNING"))
  else none

/-- `CostEngine.budget_alerts()`: for every configured budget, the rounded
spend percentage (0 when the limit is not positive), kept only at 80% and
above, with status `"OVER"` from 100% and `"WARNING"` below. -/
def CostEngine.budget_alerts (e : CostEngine) : List Alert :=
  e.budgets.filterMap (alertOf (e.breakdown "team"))

/-- The composed `summary()` view. -/
structure Summary where
  total_queries : ℕ
  total_credits : ℚ
  total_cost_usd : ℚ
  by_team : List (String × BreakdownEntry)
  by_warehouse : List (String × BreakdownEntry)
  anomalies : List AnomalyEntry
  budget_alerts : List Alert
deriving DecidableEq

/-- `CostEngine.summary()` (anomaly threshold at its default `2.0`). -/
def CostEngine.summary (e : CostEngine) : Summary :=
  let tc := sumCredits e.queries
  Summary.mk e.queries.length (pyRound 4 tc) (pyRound 2 (tc * e.credit_price))
    (e.breakdown "team") (e.breakdown "warehouse_name") (e.anomalies 2) e.budget_alerts

/-- `summary` as a state transformer: the method body contains no assignment
to `self`, so the engine state it returns is the one it received. -/
def CostEngine.summaryStep (e : CostEngine) : CostEngine × Summary :=
  (e, e.summary)

/-! ## HTTP boundary (api.py) -/

/-- The body of the analyze endpoints (`AnalyzeRequest`). -/
structure AnalyzeRequest where
  queries : List RawRecord
  budgets : List (String × ℚ)
  z_threshold : ℚ
  credit_price : ℚ
deriving DecidableEq

/-- The error kind carried by an HTTP 400 from `api.py`. -/
inductive ApiErrorKind where
  | invalidDimension
  | invalidData
  | noBudgets
deriving DecidableEq

/-- An endpoint outcome: a value, or an `HTTPException` client error. -/
inductive ApiResponse (α : Type) where
  | ok (value : α)
  | clientError (status : ℕ) (kind : ApiErrorKind)
deriving DecidableEq

/-- `_build_engine(req)`: construct with the requested credit price, load
(translating the `TypeError` into a 400), then set every budget. -/
def buildEngine (req : AnalyzeRequest) : Except LoadError CostEngine :=
  match (CostEngine.new req.credit_price).load req.queries with
  | (_, .error err) => .error err
  | (e, .ok _) => .ok (req.budgets.foldl (fun en p => en.set_budget p.1 p.2) e)

/-- The dimension whitelist of `POST /v1/breakdown/{dimension}`. -/
def validDims : List String :=
  ["team", "warehouse_name", "dbt_model", "dag_id", "user_name"]

/-- `POST /v1/breakdown/{dimension}`: the whitelist is checked before the
engine is ever built; only then is the engine constructed and `breakdown`
invoked. -/
def apiBreakdown (dimension : String) (req : AnalyzeRequest) :
    ApiResponse (String × List (String × BreakdownEntry)) :=
  if dimension ∈ validDims then
    match buildEngine req with
    | .error _ => .clientError 400 .invalidData
    | .ok e => .ok (dimension, e.breakdown dimension)
  else .clientError 400 .invalidDimension

/-! ## Specification-side definitions

These follow the words of the specification (not the source) and exist only
to be compared with the embedded code. -/

/-- Half-to-even rounding of a real number to an integer: the mathematical
meaning of Python's `round` applied to the (irrational, in general) z-score.
Spec side only; the executable counterpart is `rne`/`rneSqrtQ`. -/
noncomputable def rheR (x : ℝ) : ℤ :=
  if Int.fract x < 1/2 then ⌊x⌋
  else if 1/2 < Int.fract x then ⌊x⌋ + 1
  else if ⌊x⌋ % 2 = 0 then ⌊x⌋ else ⌊x⌋ + 1

/-- Modelled from the spec for claim C5: "the text after the first occurrence
of substring `team=` in the tag string up to the next `;`, trimmed", when
`team=` occurs in the tag.  The text after the first occurrence is all split
chunks beyond the first, rejoined with the separator. -/
def teamTagValueSpec (tag : String) : Option String :=
  match splitL "team=".data tag.data with
  | _ :: c :: cs =>
    let after := List.intercalate "team=".data (c :: cs)
    some (trimL ((splitL [';'] after).headD after)).asString
  | _ => none

/-- The conclusions claim C2 draws about a batch that is large enough and has
non-zero dispersion: `anomalies` is exactly the strict one-sided z-score
exceeders (with the z-score given by the real-number formula
`(costUsd - mean) / stddev`, `stddev` the Bessel-corrected sample standard
deviation), sorted descending by the reported z-score, each entry carrying
query id, cost, the z-score rounded half-to-even to 2 decimals, team and
warehouse. -/
def anomaliesActiveSpec (e : CostEngine) (z : ℚ) : Prop :=
  let costs := e.queries.map QueryRecord.cost_usd
  let mu := listMean costs
  let v := sampleVar costs
  let sd : ℝ := Real.sqrt ((v : ℚ) : ℝ)
  (e.anomalies z).Perm
    ((e.queries.filter (fun q => zGTsqrt (q.cost_usd - mu) z v)).map (anomalyEntry mu v)) ∧
  (∀ q : QueryRecord, zGTsqrt (q.cost_usd - mu) z v = true ↔
      (z : ℝ) < (((q.cost_usd : ℚ) : ℝ) - ((mu : ℚ) : ℝ)) / sd) ∧
  List.Pairwise (fun a b => b.z_score ≤ a.z_score) (e.anomalies z) ∧
  (∀ q : QueryRecord, anomalyEntry mu v q =
      AnomalyEntry.mk q.query_id q.cost_usd (zRound2 (q.cost_usd - mu) v) q.team
        q.warehouse_name) ∧
  (∀ q : QueryRecord, ((zRound2 (q.cost_usd - mu) v : ℚ) : ℝ) =
      (rheR (100 * ((((q.cost_usd : ℚ) : ℝ) - ((mu : ℚ) : ℝ)) / sd)) : ℝ) / 100)

/-! ## Concrete inputs used by witnesses and counterexamples -/

/-- A record consuming one credit (used against an engine priced at 1). -/
def recPrice1 : QueryRecord :=
  QueryRecord.mk "q1" "SELECT 1" "analytics_bob" "WH" 1 10 100 "2024-01-15T10:00:00"
    "team=analytics"

/-- An engine whose credit price is 1, not the default 3. -/
def enginePrice1 : CostEngine := CostEngine.mk 1 [recPrice1] []

/-- The rational 1/25000 = 0.00004, whose 4-decimal rounding is 0, written
with an explicit numerator and denominator so that the kernel can compare it
structurally. -/
def tinyCredit : ℚ := Rat.mk' 1 25000 (by norm_num) (Nat.coprime_one_left _)

/-- Two records on distinct teams, each consuming 0.00004 credits. -/
def recTinyA : QueryRecord :=
  QueryRecord.mk "a" "" "ua" "WH" tinyCredit 0 0 "" "team=t1"

/-- Second tiny-credit record, on the other team. -/
def recTinyB : QueryRecord :=
  QueryRecord.mk "b" "" "ub" "WH" tinyCredit 0 0 "" "team=t2"

/-- The batch whose reported per-group credits round to 0 while the batch
total does not. -/
def engineTiny : CostEngine := CostEngine.mk 3 [recTinyA, recTinyB] []

/-- Tag in which the text after the first `team=` contains a second `team=`
and the chunk between the two occurrences strips to the empty string. -/
def recTeamTag : QueryRecord :=
  QueryRecord.mk "q" "" "ml_alice" "WH" 0 0 0 "" "team= team=x"

/-- Tag carrying `team=analytics` (used to witness the amended C5). -/
def recTeamOk : QueryRecord :=
  QueryRecord.mk "q" "" "ml_alice" "WH" 0 0 0 "" "team=analytics;dbt:m"

/-- Tag in which `dbt:` occurs with an empty value and `model=` follows. -/
def recDbtEmpty : QueryRecord :=
  QueryRecord.mk "q" "" "u" "WH" 0 0 0 "" "dbt:;model=abc"

/-- Tag carrying a non-empty `dbt:` value and a `model=` value. -/
def recDbtBoth : QueryRecord :=
  QueryRecord.mk "q" "" "u" "WH" 0 0 0 "" "dbt:stg_orders;model=other"

/-- Batch of four queries with integer credits 0, 0, 0, 2, hence per-query
costs 0, 0, 0, 6: sample mean 3/2, sample variance 9, standard deviation 3. -/
def engineSpread : CostEngine :=
  CostEngine.mk 3
    [QueryRecord.mk "s1" "" "ml_a" "WH" 0 0 0 "" "",
     QueryRecord.mk "s2" "" "ml_b" "WH" 0 0 0 "" "",
     QueryRecord.mk "s3" "" "ml_c" "WH" 0 0 0 "" "",
     QueryRecord.mk "s4" "" "ml_d" "WH" 2 0 0 "" ""]
    []

/-- Engine with one budget of 50 against 20 credits of analytics spend
(cost 60 at price 3, 120% of budget). -/
def engineBudget : CostEngine :=
  CostEngine.mk 3
    [QueryRecord.mk "b1" "" "analytics_bob" "WH" 20 0 0 "" "team=analytics"]
    [("analytics", 50)]

/-- Raw record missing every required field (only a tag present). -/
def rawMissing : RawRecord :=
  RawRecord.mk none none none none none none none none (some "team=x") []

/-- An engine with a loaded batch and a budget, used to observe that a
failing `load` leaves it unchanged. -/
def engineLoaded : CostEngine :=
  CostEngine.mk 3 [recPrice1] [("analytics", 500)]

/-- A request whose dimension check fails before any engine is built. -/
def reqEmpty : AnalyzeRequest := AnalyzeRequest.mk [] [] 2 3

deriving instance DecidableEq for Except

/-! ## Association-list (Python dict) lemmas -/

theorem lookupD_cons {α : Type} (p : String × α) (m : List (String × α)) (k : String) :
    lookupD (p :: m) k = if p.1 = k then some p.2 else lookupD m k := by
  unfold lookupD
  rw [List.find?_cons]
  by_cases h : p.1 = k
  · simp [h]
  · simp [h]

theorem lookupD_mapOverwrite (k k' : String) (v : ℚ) (hne : k' ≠ k) :
    ∀ m : List (String × ℚ),
      lookupD (m.map (fun p => if p.1 = k then (k, v) else p)) k' = lookupD m k' := by
  intro m
  induction m with
  | nil => rfl
  | cons p rest ih =>
    by_cases hp : p.1 = k
    · have hp' : ¬ (p.1 = k') := by rw [hp]; exact Ne.symm hne
      simp [List.map_cons, if_pos hp, lookupD_cons, Ne.symm hne, hp', ih]
    · simp only [List.map_cons, if_neg hp, lookupD_cons]
      by_cases hq : p.1 = k'
      · simp [hq]
      · simp [hq, ih]

theorem lookupD_append_single (k k' : String) (v : ℚ) (hne : k' ≠ k) :
    ∀ m : List (String × ℚ), lookupD (m ++ [(k, v)]) k' = lookupD m k' := by
  intro m
  induction m with
  | nil => simp [lookupD, List.find?, Ne.symm hne]
  | cons p rest ih =>
    by_cases hq : p.1 = k'
    · simp [List.cons_append, lookupD_cons, hq]
    · simp [List.cons_append, lookupD_cons, hq, ih]

theorem lookupD_dictSet_self (k : String) (v : ℚ) :
    ∀ m : List (String × ℚ), lookupD (dictSet m k v) k = some v := by
  intro m
  induction m with
  | nil => simp [dictSet, lookupD, List.find?]
  | cons p rest ih =>
    by_cases hp : p.1 = k
    · have hany : (p :: rest).any (fun p => p.1 = k) = true := by
        simp [List.any_cons, hp]
      simp [dictSet, hany, List.map_cons, if_pos hp, lookupD_cons]
    · have hstep : dictSet (p :: rest) k v = p :: dictSet rest k v := by
        by_cases hr : rest.any (fun q => q.1 = k)
        · simp [dictSet, List.any_cons, hp, hr, if_neg hp]
        · simp [dictSet, List.any_cons, hp, hr]
      rw [hstep]
      simp [lookupD_cons, hp, ih]

theorem lookupD_dictSet_other (k k' : String) (v : ℚ) (hne : k' ≠ k)
    (m : List (String × ℚ)) : lookupD (dictSet m k v) k' = lookupD m k' := by
  by_cases hany : m.any (fun p => p.1 = k)
  · rw [dictSet, if_pos hany]
    exact lookupD_mapOverwrite k k' v hne m
  · rw [dictSet, if_neg hany]
    exact lookupD_append_single k k' v hne m

theorem nodupKeys_val_eq {α : Type} {m : List (String × α)}
    (h : (m.map Prod.fst).Nodup) {t : String} {l l' : α}
    (h1 : (t, l) ∈ m) (h2 : (t, l') ∈ m) : l = l' := by
  induction m with
  | nil => simp at h1
  | cons p rest ih =>
    rw [List.map_cons, List.nodup_cons] at h
    rcases List.mem_cons.mp h1 with he1 | h1' <;> rcases List.mem_cons.mp h2 with he2 | h2'
    · rw [← he1] at he2
      exact (Prod.mk.injEq _ _ _ _ ▸ he2).2.symm
    · exact absurd (List.mem_map.mpr ⟨(t, l'), h2', by rw [← he1]⟩) h.1
    · exact absurd (List.mem_map.mpr ⟨(t, l), h1', by rw [← he2]⟩) h.1
    · exact ih h.2 h1' h2'

theorem alertOf_eq_some (byTeam : List (String × BreakdownEntry)) (p : String × ℚ)
    (a : Alert) :
    alertOf byTeam p = some a ↔
      (80 ≤ (if 0 < p.2 then pyRound 1 (teamSpent byTeam p.1 / p.2 * 100) else 0) ∧
       a = Alert.mk p.1 p.2 (teamSpent byTeam p.1)
         (if 0 < p.2 then pyRound 1 (teamSpent byTeam p.1 / p.2 * 100) else 0)
         (if 100 ≤ (if 0 < p.2 then pyRound 1 (teamSpent byTeam p.1 / p.2 * 100) else 0)
           then "OVER" else "WARNING")) := by
  simp only [alertOf]
  by_cases h : 80 ≤ (if 0 < p.2 then pyRound 1 (teamSpent byTeam p.1 / p.2 * 100) else 0)
  · rw [if_pos h]
    constructor
    · intro he
      exact ⟨h, (Option.some_inj.mp he).symm⟩
    · intro hpa
      rw [hpa.2]
  · rw [if_neg h]
    constructor
    · intro he
      exact Option.noConfusion he
    · intro hpa
      exact absurd hpa.1 h

theorem mkAlert_status (t : String) (l spent pct : ℚ) :
    ((Alert.mk t l spent pct (if 100 ≤ pct then "OVER" else "WARNING")).status = "OVER"
        ↔ 100 ≤ pct) ∧
    (pct < 100 →
      (Alert.mk t l spent pct (if 100 ≤ pct then "OVER" else "WARNING")).status
        = "WARNING") := by
  constructor
  · by_cases h : 100 ≤ pct
    · simp [h]
    · simp only [if_neg h]
      constructor
      · intro hw
        exact absurd hw (by decide)
      · intro hc
        exact absurd hc h
  · intro hlt
    simp [if_neg (not_le.mpr hlt)]

theorem addToGroups_keys (gs : List (String × List QueryRecord)) (k : String)
    (q : QueryRecord) :
    (addToGroups gs k q).map Prod.fst =
      if gs.any (fun p => p.1 = k) then gs.map Prod.fst else gs.map Prod.fst ++ [k] := by
  unfold addToGroups
  by_cases h : gs.any (fun p => p.1 = k)
  · rw [if_pos h, if_pos h, List.map_map]
    apply List.map_congr_left
    intro p hp
    by_cases hpk : p.1 = k
    · simp [hpk]
    · simp [hpk]
  · rw [if_neg h, if_neg h]
    simp

theorem addToGroups_keys_nodup (gs : List (String × List QueryRecord)) (k : String)
    (q : QueryRecord) (h : (gs.map Prod.fst).Nodup) :
    ((addToGroups gs k q).map Prod.fst).Nodup := by
  rw [addToGroups_keys]
  by_cases hany : gs.any (fun p => p.1 = k)
  · rw [if_pos hany]
    exact h
  · rw [if_neg hany]
    have hk : k ∉ gs.map Prod.fst := by
      intro hmem
      rcases List.mem_map.mp hmem with ⟨p, hp, hpk⟩
      exact absurd (List.any_eq_true.mpr ⟨p, hp, by simp [hpk]⟩) hany
    simp [List.nodup_append, h, hk]

theorem flatten_mapAppend (k : String) (q : QueryRecord) :
    ∀ gs : List (String × List QueryRecord), (gs.map Prod.fst).Nodup →
      gs.any (fun p => p.1 = k) = true →
      ((gs.map (fun p => if p.1 = k then (p.1, p.2 ++ [q]) else p)).flatMap
          (fun p => p.2)).Perm ((gs.flatMap (fun p => p.2)) ++ [q]) := by
  intro gs
  induction gs with
  | nil =>
    intro _ hany
    simp at hany
  | cons p rest ih =>
    intro h hany
    rw [List.map_cons, List.nodup_cons] at h
    by_cases hpk : p.1 = k
    · have hrest : rest.map (fun x => if x.1 = k then (x.1, x.2 ++ [q]) else x) = rest := by
        conv_rhs => rw [← List.map_id rest]
        apply List.map_congr_left
        intro x hx
        have hxk : ¬ x.1 = k := by
          intro hc
          have hpx : p.1 = x.1 := by rw [hpk, hc]
          exact h.1 (hpx ▸ List.mem_map.mpr ⟨x, hx, rfl⟩)
        simp [hxk]
      simp only [List.map_cons, if_pos hpk, List.flatMap_cons, hrest]
      rw [List.append_assoc, List.append_assoc]
      exact List.Perm.append_left p.2 List.perm_append_comm
    · have hrany : rest.any (fun p => p.1 = k) = true := by
        rcases List.any_eq_true.mp hany with ⟨x, hx, hxk⟩
        rcases List.mem_cons.mp hx with he | hx'
        · exact absurd (of_decide_eq_true (he ▸ hxk)) hpk
        · exact List.any_eq_true.mpr ⟨x, hx', hxk⟩
      simp only [List.map_cons, if_neg hpk, List.flatMap_cons]
      have hstep := List.Perm.append_left p.2 (ih h.2 hrany)
      rw [← List.append_assoc] at hstep
      exact hstep

theorem addToGroups_flatten (gs : List (String × List QueryRecord)) (k : String)
    (q : QueryRecord) (h : (gs.map Prod.fst).Nodup) :
    ((addToGroups gs k q).flatMap (fun p => p.2)).Perm
      ((gs.flatMap (fun p => p.2)) ++ [q]) := by
  unfold addToGroups
  by_cases hany : gs.any (fun p => p.1 = k)
  · rw [if_pos hany]
    exact flatten_mapAppend k q gs h hany
  · rw [if_neg hany]
    simp

theorem groupsFold_invariant (dim : String) :
    ∀ (qs : List QueryRecord) (gs : List (String × List QueryRecord)),
      (gs.map Prod.fst).Nodup →
      (((qs.foldl (fun gs q => addToGroups gs (groupKey q dim) q) gs).map Prod.fst).Nodup ∧
        ((qs.foldl (fun gs q => addToGroups gs (groupKey q dim) q) gs).flatMap
          (fun p => p.2)).Perm ((gs.flatMap (fun p => p.2)) ++ qs)) := by
  intro qs
  induction qs with
  | nil =>
    intro gs h
    simpa using h
  | cons q rest ih =>
    intro gs h
    rw [List.foldl_cons]
    obtain ⟨ha, hb⟩ := ih (addToGroups gs (groupKey q dim) q) (addToGroups_keys_nodup gs _ q h)
    refine ⟨ha, hb.trans ?_⟩
    have hstep := List.Perm.append_right rest (addToGroups_flatten gs (groupKey q dim) q h)
    rw [List.append_assoc] at hstep
    simpa using hstep

theorem sumCredits_append (a b : List QueryRecord) :
    sumCredits (a ++ b) = sumCredits a + sumCredits b := by
  simp [sumCredits, List.map_append, List.sum_append]

theorem sumCredits_flatten (gs : List (String × List QueryRecord)) :
    (gs.map (fun p => sumCredits p.2)).sum = sumCredits (gs.flatMap (fun p => p.2)) := by
  induction gs with
  | nil => simp [sumCredits]
  | cons p rest ih =>
    rw [List.map_cons, List.sum_cons, List.flatMap_cons, sumCredits_append, ih]

theorem sumCredits_perm {l1 l2 : List QueryRecord} (h : l1.Perm l2) :
    sumCredits l1 = sumCredits l2 := by
  unfold sumCredits
  exact (h.map (fun q => q.credits_used)).sum_eq

theorem insertionSort_pair {α : Type} (r : α → α → Prop) [DecidableRel r] (x y : α)
    (h : r x y) : [x, y].insertionSort r = [x, y] := by
  show List.orderedInsert r x (List.orderedInsert r y []) = [x, y]
  rw [List.orderedInsert_nil]
  exact List.orderedInsert_of_le r [] h



theorem sampleVar_nonneg (xs : List ℚ) (h : 2 ≤ xs.length) : 0 ≤ sampleVar xs := by
  unfold sampleVar
  apply div_nonneg
  · apply List.sum_nonneg
    intro x hx
    rcases List.mem_map.mp hx with ⟨y, _, rfl⟩
    positivity
  · have : (2 : ℚ) ≤ (xs.length : ℚ) := by exact_mod_cast h
    linarith

theorem zGT_iff (d z v : ℚ) (hv : 0 < v) :
    zGTsqrt d z v = true ↔ (z : ℝ) < (d : ℝ) / Real.sqrt ((v : ℚ) : ℝ) := by
  have hvR : (0 : ℝ) < (v : ℝ) := by exact_mod_cast hv
  set s := Real.sqrt ((v : ℚ) : ℝ) with hs
  have hspos : 0 < s := Real.sqrt_pos.mpr hvR
  have hs2 : s ^ 2 = (v : ℝ) := Real.sq_sqrt hvR.le
  rw [lt_div_iff₀ hspos]
  unfold zGTsqrt
  by_cases hz : 0 ≤ z
  · rw [if_pos hz]
    have hzR : (0 : ℝ) ≤ (z : ℝ) := by exact_mod_cast hz
    simp only [Bool.and_eq_true, decide_eq_true_eq]
    constructor
    · rintro ⟨hd, hsq⟩
      have hdR : (0 : ℝ) < (d : ℝ) := by exact_mod_cast hd
      have hsqR : (z : ℝ) ^ 2 * (v : ℝ) < (d : ℝ) ^ 2 := by exact_mod_cast hsq
      nlinarith [mul_nonneg hzR hspos.le]
    · intro hlt
      have hd : (0 : ℝ) < (d : ℝ) := lt_of_le_of_lt (mul_nonneg hzR hspos.le) hlt
      have h1 : 0 < (d : ℝ) - (z : ℝ) * s := sub_pos.mpr hlt
      have h2 : 0 < (d : ℝ) + (z : ℝ) * s := by
        have := mul_nonneg hzR hspos.le
        linarith
      have hsqR : (z : ℝ) ^ 2 * (v : ℝ) < (d : ℝ) ^ 2 := by
        nlinarith [mul_pos h1 h2]
      constructor
      · exact_mod_cast hd
      · exact_mod_cast hsqR
  · rw [if_neg hz]
    have hzR : (z : ℝ) < 0 := by
      have : z < 0 := not_le.mp hz
      exact_mod_cast this
    simp only [Bool.or_eq_true, decide_eq_true_eq]
    constructor
    · rintro (hd | hsq)
      · have hdR : (0 : ℝ) ≤ (d : ℝ) := by exact_mod_cast hd
        nlinarith [mul_neg_of_neg_of_pos hzR hspos]
      · have hsqR : (d : ℝ) ^ 2 < (z : ℝ) ^ 2 * (v : ℝ) := by exact_mod_cast hsq
        by_cases hd : (0 : ℝ) ≤ (d : ℝ)
        · nlinarith [mul_neg_of_neg_of_pos hzR hspos]
        · push_neg at hd
          nlinarith [mul_neg_of_neg_of_pos hzR hspos]
    · intro hlt
      by_cases hd : 0 ≤ d
      · exact Or.inl hd
      · refine Or.inr ?_
        push_neg at hd
        have hdR : (d : ℝ) < 0 := by exact_mod_cast hd
        have : (d : ℝ) ^ 2 < (z : ℝ) ^ 2 * (v : ℝ) := by nlinarith
        exact_mod_cast this



theorem rheR_of_fract_lt {x : ℝ} (h : Int.fract x < 1/2) : rheR x = ⌊x⌋ := by
  rw [rheR, if_pos h]

theorem rheR_of_lt_fract {x : ℝ} (h : 1/2 < Int.fract x) : rheR x = ⌊x⌋ + 1 := by
  rw [rheR, if_neg (by linarith), if_pos h]

theorem rheR_of_fract_eq {x : ℝ} (h : Int.fract x = 1/2) :
    rheR x = if ⌊x⌋ % 2 = 0 then ⌊x⌋ else ⌊x⌋ + 1 := by
  rw [rheR, if_neg (by rw [h]; exact lt_irrefl _), if_neg (by rw [h]; exact lt_irrefl _)]

theorem floor_neg_of_fract_ne {x : ℝ} (h : Int.fract x ≠ 0) : ⌊-x⌋ = -⌊x⌋ - 1 := by
  have h1 : (⌊x⌋ : ℝ) ≤ x := Int.floor_le x
  have h2 : x < ⌊x⌋ + 1 := Int.lt_floor_add_one x
  have h3 : (⌊x⌋ : ℝ) < x := by
    rcases lt_or_eq_of_le h1 with hlt | heq
    · exact hlt
    · refine absurd ?_ h
      rw [← Int.self_sub_floor]
      linarith
  rw [Int.floor_eq_iff]
  constructor
  · push_cast
    linarith
  · push_cast
    linarith

theorem rheR_neg (x : ℝ) : rheR (-x) = - rheR x := by
  by_cases h0 : Int.fract x = 0
  · have hxf : x = (⌊x⌋ : ℝ) := by
      have := Int.self_sub_floor x
      rw [h0] at this
      linarith
    have hnx : Int.fract (-x) = 0 := Int.fract_neg_eq_zero.mpr h0
    rw [@rheR_of_fract_lt (-x) (by rw [hnx]; norm_num),
      @rheR_of_fract_lt x (by rw [h0]; norm_num)]
    rw [hxf]
    rw [show -((⌊x⌋ : ℝ)) = ((-⌊x⌋ : ℤ) : ℝ) by push_cast; ring]
    rw [Int.floor_intCast, Int.floor_intCast]
  · have hfneg : Int.fract (-x) = 1 - Int.fract x := Int.fract_neg h0
    have hfl : ⌊-x⌋ = -⌊x⌋ - 1 := floor_neg_of_fract_ne h0
    have hfpos : 0 < Int.fract x := lt_of_le_of_ne (Int.fract_nonneg x) (Ne.symm h0)
    have hflt : Int.fract x < 1 := Int.fract_lt_one x
    rcases lt_trichotomy (Int.fract x) (1/2) with hc | hc | hc
    · rw [@rheR_of_lt_fract (-x) (by rw [hfneg]; linarith),
        @rheR_of_fract_lt x hc, hfl]
      ring
    · rw [@rheR_of_fract_eq (-x) (by rw [hfneg, hc]; norm_num),
        @rheR_of_fract_eq x hc, hfl]
      by_cases hp : ⌊x⌋ % 2 = 0
      · rw [if_pos hp, if_neg (by omega)]
        omega
      · rw [if_neg hp, if_pos (by omega)]
        omega
    · rw [@rheR_of_lt_fract x hc,
        @rheR_of_fract_lt (-x) (by rw [hfneg]; linarith), hfl]
      ring



theorem rat_cast_as_div (r : ℚ) (hr : 0 ≤ r) :
    ((r : ℚ) : ℝ) = ((r.num.toNat : ℕ) : ℝ) / ((r.den : ℕ) : ℝ) := by
  have h1 : ((r.num.toNat : ℤ)) = r.num := Int.toNat_of_nonneg (Rat.num_nonneg.mpr hr)
  rw [show (((r.num.toNat : ℕ)) : ℝ) = ((r.num : ℤ) : ℝ) by exact_mod_cast h1]
  rw [Rat.cast_def]

theorem sqrt_rat_floor (r : ℚ) (hr : 0 ≤ r) :
    ⌊Real.sqrt ((r : ℚ) : ℝ)⌋₊ = Nat.sqrt (r.num.toNat * r.den) / r.den := by
  have hden : (0 : ℝ) < ((r.den : ℕ) : ℝ) := by
    have := r.pos
    exact_mod_cast this
  have hrw : ((r : ℚ) : ℝ) =
      (((r.num.toNat * r.den : ℕ) : ℝ)) / (((r.den : ℕ) : ℝ)) ^ 2 := by
    rw [rat_cast_as_div r hr]
    push_cast
    field_simp
    ring
  rw [hrw, Real.sqrt_div' _ (by positivity), Real.sqrt_sq hden.le,
    Nat.floor_div_nat, Real.nat_floor_real_sqrt_eq_nat_sqrt]

theorem rneSqrtQ_eq (r : ℚ) (hr : 0 ≤ r) :
    (rneSqrtQ r : ℤ) = rheR (Real.sqrt ((r : ℚ) : ℝ)) := by
  set x := Real.sqrt ((r : ℚ) : ℝ) with hx
  have hx0 : 0 ≤ x := Real.sqrt_nonneg _
  set n := Nat.sqrt (r.num.toNat * r.den) / r.den with hn
  have hnf : ⌊x⌋₊ = n := by rw [hx, sqrt_rat_floor r hr]
  have hfl : ⌊x⌋ = (n : ℤ) := by
    rw [Int.floor_eq_iff]
    constructor
    · have := Nat.floor_le hx0
      rw [hnf] at this
      exact_mod_cast this
    · have := Nat.lt_floor_add_one x
      rw [hnf] at this
      exact_mod_cast this
  have hnle : ((n : ℕ) : ℝ) ≤ x := by
    have := Int.floor_le x
    rw [hfl] at this
    exact_mod_cast this
  have hnlt : x < ((n : ℕ) : ℝ) + 1 := by
    have := Int.lt_floor_add_one x
    rw [hfl] at this
    exact_mod_cast this
  have hfr : Int.fract x = x - ((n : ℕ) : ℝ) := by
    rw [← Int.self_sub_floor, hfl]
    norm_num
  have hrx : ((r : ℚ) : ℝ) = x ^ 2 := (Real.sq_sqrt (by exact_mod_cast hr)).symm
  unfold rneSqrtQ
  rw [← hn]
  rcases lt_trichotomy (4 * r) (((2 * n + 1 : ℕ) : ℚ) ^ 2) with hc | hc | hc
  · rw [if_pos hc]
    have h4 : (4 : ℝ) * ((r : ℚ) : ℝ) < (2 * ((n : ℕ) : ℝ) + 1) ^ 2 := by
      exact_mod_cast hc
    have hcR : x < ((n : ℕ) : ℝ) + 1/2 := by
      by_contra hge
      push_neg at hge
      have h5 : (((n : ℕ) : ℝ) + 1/2) ^ 2 ≤ x ^ 2 := pow_le_pow_left₀ (by positivity) hge 2
      nlinarith [hrx]
    rw [rheR_of_fract_lt (by rw [hfr]; linarith), hfl]
  · rw [if_neg (by rw [hc]; exact lt_irrefl _), if_neg (by rw [hc]; exact lt_irrefl _)]
    have h4 : (4 : ℝ) * ((r : ℚ) : ℝ) = (2 * ((n : ℕ) : ℝ) + 1) ^ 2 := by
      exact_mod_cast hc
    have hpos : (0 : ℝ) ≤ ((n : ℕ) : ℝ) + 1/2 := by positivity
    have hsq : x ^ 2 = (((n : ℕ) : ℝ) + 1/2) ^ 2 := by nlinarith [hrx]
    have hcR : x = ((n : ℕ) : ℝ) + 1/2 := by
      have hxs : x = Real.sqrt (x ^ 2) := (Real.sqrt_sq hx0).symm
      rw [hxs, hsq, Real.sqrt_sq hpos]
    rw [rheR_of_fract_eq (by rw [hfr, hcR]; ring), hfl]
    by_cases hp : n % 2 = 0
    · rw [if_pos hp, if_pos (by omega)]
    · rw [if_neg hp, if_neg (by omega)]
      push_cast
      ring
  · rw [if_neg (by exact not_lt_of_gt hc), if_pos hc]
    have h4 : (2 * ((n : ℕ) : ℝ) + 1) ^ 2 < (4 : ℝ) * ((r : ℚ) : ℝ) := by
      exact_mod_cast hc
    have hcR : ((n : ℕ) : ℝ) + 1/2 < x := by
      by_contra hle
      push_neg at hle
      have h5 : x ^ 2 ≤ (((n : ℕ) : ℝ) + 1/2) ^ 2 := pow_le_pow_left₀ hx0 hle 2
      nlinarith [hrx]
    rw [rheR_of_lt_fract (by rw [hfr]; linarith), hfl]
    push_cast
    ring



theorem zRound2_eq (d v : ℚ) (hv : 0 < v) :
    ((zRound2 d v : ℚ) : ℝ) =
      (rheR (100 * ((d : ℝ) / Real.sqrt ((v : ℚ) : ℝ))) : ℝ) / 100 := by
  have hvR : (0 : ℝ) < ((v : ℚ) : ℝ) := by exact_mod_cast hv
  set s := Real.sqrt ((v : ℚ) : ℝ) with hs
  have hspos : 0 < s := Real.sqrt_pos.mpr hvR
  have hs2 : s ^ 2 = ((v : ℚ) : ℝ) := Real.sq_sqrt hvR.le
  set y : ℝ := 100 * ((d : ℝ) / s) with hy
  have hA : ((10000 * d ^ 2 / v : ℚ) : ℝ) = y ^ 2 := by
    have h1 : y ^ 2 = 10000 * (d : ℝ) ^ 2 / s ^ 2 := by
      rw [hy]
      field_simp
      ring
    rw [h1, hs2]
    push_cast
    ring
  have hA0 : (0 : ℚ) ≤ 10000 * d ^ 2 / v := by positivity
  have hsqrtA : Real.sqrt ((10000 * d ^ 2 / v : ℚ) : ℝ) = |y| := by
    rw [hA, Real.sqrt_sq_eq_abs]
  have hm := rneSqrtQ_eq (10000 * d ^ 2 / v) hA0
  rw [hsqrtA] at hm
  unfold zRound2
  by_cases hd : 0 ≤ d
  · rw [if_pos hd]
    have hy0 : 0 ≤ y := by
      rw [hy]
      have hdR : (0 : ℝ) ≤ (d : ℝ) := by exact_mod_cast hd
      positivity
    rw [abs_of_nonneg hy0] at hm
    push_cast
    rw [show ((rneSqrtQ (10000 * d ^ 2 / v) : ℕ) : ℝ) = ((rheR y : ℤ) : ℝ) by
      exact_mod_cast hm]
  · rw [if_neg hd]
    have hy0 : y < 0 := by
      rw [hy]
      have hdR : (d : ℝ) < 0 := by exact_mod_cast not_le.mp hd
      have : (d : ℝ) / s < 0 := div_neg_of_neg_of_pos hdR hspos
      linarith
    rw [abs_of_neg hy0, rheR_neg] at hm
    push_cast
    rw [show ((rneSqrtQ (10000 * d ^ 2 / v) : ℕ) : ℝ) = -((rheR y : ℤ) : ℝ) by
      rw [← Int.cast_neg]
      exact_mod_cast hm]
    ring

/-! ## Claim theorems -/

/-- Claim C1 (code bug): the spec derives `costUsd` as
`credits_used x credit_price` with a configurable price, and the engine's
`breakdown`/`summary` do use the configured price; but `QueryRecord.cost_usd`
hardcodes `3.0`.  On an engine priced at 1 holding a one-credit record, the
per-record cost (the value `anomalies()` works from) is 3 while the claimed
value is 1, and the same engine's team breakdown prices the very same credit
at 1. -/
theorem cost_usd_hardcoded_counterexample :
    recPrice1.cost_usd = 3 ∧
    pyRound 4 (recPrice1.credits_used * enginePrice1.credit_price) = 1 ∧
    (enginePrice1.breakdown "team").map (fun p => p.2.cost_usd) = [1] ∧
    (3 : ℚ) ≠ 1 := by
  have hg : groupsOf enginePrice1.queries "team" = [("analytics", [recPrice1])] := by decide
  have hc : recPrice1.credits_used = 1 := rfl
  have hp : enginePrice1.credit_price = 1 := rfl
  have hsum : sumCredits [recPrice1] = 1 := by simp [sumCredits, hc]
  refine ⟨?_, ?_, ?_, by norm_num⟩
  · rw [QueryRecord.cost_usd, hc]
    norm_num [pyRound, rne, Int.fract]
  · rw [hc, hp]
    norm_num [pyRound, rne, Int.fract]
  · rw [CostEngine.breakdown]
    rw [hg, hp]
    simp only [List.insertionSort, List.orderedInsert, List.map, hsum]
    norm_num [pyRound, rne, Int.fract]

/-- Claim C3 (confirmed): over any engine whose budget keys are unique (a
Python dict invariant), an alert exists for a budgeted team exactly when its
rounded spend percentage — `round(spent / limit * 100, 1)` for a positive
limit and 0 otherwise — is at least 80; every emitted alert carries that
team's limit, spend and percentage, has status `"OVER"` iff the percentage
is at least 100 and `"WARNING"` on [80, 100); and every alert belongs to a
budgeted team. -/
theorem budget_alerts_spec (e : CostEngine) (hnd : (e.budgets.map Prod.fst).Nodup) :
    (∀ t l, (t, l) ∈ e.budgets →
      ((∃ a ∈ e.budget_alerts, a.team = t) ↔
          80 ≤ (if 0 < l then pyRound 1 (teamSpent (e.breakdown "team") t / l * 100) else 0)) ∧
      (∀ a ∈ e.budget_alerts, a.team = t →
        a = Alert.mk t l (teamSpent (e.breakdown "team") t)
          (if 0 < l then pyRound 1 (teamSpent (e.breakdown "team") t / l * 100) else 0)
          (if 100 ≤ (if 0 < l then pyRound 1 (teamSpent (e.breakdown "team") t / l * 100) else 0)
            then "OVER" else "WARNING"))) ∧
    (∀ a ∈ e.budget_alerts,
      80 ≤ a.pct ∧ (a.status = "OVER" ↔ 100 ≤ a.pct) ∧
      (a.pct < 100 → a.status = "WARNING") ∧ ∃ l, (a.team, l) ∈ e.budgets) := by
  constructor
  · intro t l htl
    constructor
    · constructor
      · rintro ⟨a, ha, hat⟩
        rcases List.mem_filterMap.mp ha with ⟨p, hp, hfa⟩
        rcases (alertOf_eq_some _ p a).mp hfa with ⟨hge, hae⟩
        have hteam : p.1 = t := by rw [hae] at hat; exact hat
        have hl : p.2 = l := by
          rcases p with ⟨p1, p2⟩
          exact nodupKeys_val_eq hnd (hteam ▸ hp) htl
        rw [← hteam, ← hl]
        exact hge
      · intro hge
        refine ⟨Alert.mk t l (teamSpent (e.breakdown "team") t)
          (if 0 < l then pyRound 1 (teamSpent (e.breakdown "team") t / l * 100) else 0)
          (if 100 ≤ (if 0 < l then pyRound 1 (teamSpent (e.breakdown "team") t / l * 100) else 0)
            then "OVER" else "WARNING"), ?_, rfl⟩
        exact List.mem_filterMap.mpr ⟨(t, l), htl, (alertOf_eq_some _ (t, l) _).mpr ⟨hge, rfl⟩⟩
    · intro a ha hat
      rcases List.mem_filterMap.mp ha with ⟨p, hp, hfa⟩
      rcases (alertOf_eq_some _ p a).mp hfa with ⟨hge, hae⟩
      have hteam : p.1 = t := by rw [hae] at hat; exact hat
      have hl : p.2 = l := by
        rcases p with ⟨p1, p2⟩
        exact nodupKeys_val_eq hnd (hteam ▸ hp) htl
      rw [hae, hteam, hl]
  · intro a ha
    rcases List.mem_filterMap.mp ha with ⟨p, hp, hfa⟩
    rcases (alertOf_eq_some _ p a).mp hfa with ⟨hge, hae⟩
    refine ⟨by rw [hae]; exact hge, ?_, ?_, ⟨p.2, by rw [hae]; exact hp⟩⟩
    · rw [hae]
      exact (mkAlert_status p.1 p.2 _ _).1
    · rw [hae]
      exact (mkAlert_status p.1 p.2 _ _).2

/-- Claim C4 (corrected), amended: grouping by team is a total partition —
the group contents are a permutation of the batch, the group keys are
distinct, an empty team keys as `"unattributed"` — and the sum over groups
of the exact per-group credit totals equals the batch total; the figure
`breakdown("team")` reports per group is that exact total rounded to 4
decimals, so the reported figures sum to the batch total exactly when no
group total needs rounding. -/
theorem breakdown_team_partition (e : CostEngine) :
    ((groupsOf e.queries "team").map Prod.fst).Nodup ∧
    ((groupsOf e.queries "team").flatMap (fun p => p.2)).Perm e.queries ∧
    ((groupsOf e.queries "team").map (fun p => sumCredits p.2)).sum = sumCredits e.queries ∧
    (∀ k en, (k, en) ∈ e.breakdown "team" →
      ∃ g, (k, g) ∈ groupsOf e.queries "team" ∧ en.credits = pyRound 4 (sumCredits g) ∧
        en.queries = g.length ∧ en.cost_usd = pyRound 2 (sumCredits g * e.credit_price)) ∧
    (∀ q : QueryRecord, groupKey q "team" = if q.team = "" then "unattributed" else q.team) := by
  obtain ⟨hnd, hperm⟩ := groupsFold_invariant "team" e.queries [] (by simp)
  have hperm' : ((groupsOf e.queries "team").flatMap (fun p => p.2)).Perm e.queries := by
    simpa [groupsOf] using hperm
  refine ⟨by simpa [groupsOf] using hnd, hperm', ?_, ?_, fun q => rfl⟩
  · rw [sumCredits_flatten]
    exact sumCredits_perm hperm'
  · intro k en hmem
    simp only [CostEngine.breakdown, List.mem_map] at hmem
    obtain ⟨p, hp, hpe⟩ := hmem
    have hp' : p ∈ groupsOf e.queries "team" := by simpa using hp
    refine ⟨p.2, ?_, ?_, ?_, ?_⟩
    · have hk : p.1 = k := congrArg Prod.fst hpe
      rw [← hk]
      exact hp'
    · have := congrArg Prod.snd hpe
      simp only at this
      rw [← this]
    · have := congrArg Prod.snd hpe
      simp only at this
      rw [← this]
    · have := congrArg Prod.snd hpe
      simp only at this
      rw [← this]

/-- Claim C4 (corrected), counterexample: two 0.00004-credit queries on two
teams.  Each reported per-group credit figure is `round(0.00004, 4) = 0`, so
the reported figures sum to 0, while the batch's total credits are 0.00008 —
the claimed equality fails for the rounded values `breakdown` reports. -/
theorem breakdown_credits_counterexample :
    ((engineTiny.breakdown "team").map (fun p => p.2.credits)).sum = 0 ∧
    sumCredits engineTiny.queries = 1/12500 ∧ ((0 : ℚ) ≠ 1/12500) := by
  have hg : groupsOf engineTiny.queries "team" = [("t1", [recTinyA]), ("t2", [recTinyB])] := by
    decide
  have htiny : tinyCredit = 1/25000 := by
    rw [tinyCredit, Rat.mk'_eq_divInt]
    norm_num [Rat.divInt_eq_div]
  have hsA : sumCredits [recTinyA] = 1/25000 := by
    simp [sumCredits, recTinyA, htiny]
  have hsB : sumCredits [recTinyB] = 1/25000 := by
    simp [sumCredits, recTinyB, htiny]
  refine ⟨?_, ?_, by norm_num⟩
  · rw [CostEngine.breakdown, hg]
    have hle : sumCredits (("t2", [recTinyB]) : String × List QueryRecord).2
        ≤ sumCredits (("t1", [recTinyA]) : String × List QueryRecord).2 := by
      show sumCredits [recTinyB] ≤ sumCredits [recTinyA]
      rw [hsA, hsB]
    rw [insertionSort_pair (fun a b => sumCredits b.2 ≤ sumCredits a.2)
      ("t1", [recTinyA]) ("t2", [recTinyB]) hle]
    simp only [List.map_cons, List.map_nil, List.sum_cons, List.sum_nil]
    rw [hsA, hsB]
    norm_num [pyRound, rne, Int.fract]
  · have hq : engineTiny.queries = [recTinyA, recTinyB] := rfl
    rw [hq]
    simp [sumCredits, recTinyA, recTinyB, htiny]
    norm_num

/-- Witness for C3: an engine spending 60 of a 50 budget (120.0%) produces an
alert for that team. -/
theorem budget_alerts_spec_witness :
    ∃ a ∈ engineBudget.budget_alerts, a.team = "analytics" := by
  have hg : groupsOf engineBudget.queries "team" = [("analytics", engineBudget.queries)] := by
    decide
  have hbd : engineBudget.breakdown "team" =
      [("analytics", BreakdownEntry.mk 1 (pyRound 4 20) (pyRound 2 (20 * 3)) 0)] := by
    rw [CostEngine.breakdown, hg]
    simp [List.insertionSort, List.orderedInsert, engineBudget, sumCredits]
  have hspent : teamSpent (engineBudget.breakdown "team") "analytics" = 60 := by
    rw [hbd]
    simp [teamSpent, lookupD, List.find?]
    norm_num [pyRound, rne, Int.fract]
  have h := ((budget_alerts_spec engineBudget (by decide)).1 "analytics" 50 (by decide)).1
  apply h.mpr
  rw [hspent]
  norm_num [pyRound, rne, Int.fract]

/-- Claim C5 (corrected), counterexample: in the tag `"team= team=x"` the
text after the first `team=` up to the next `;` trims to `"team=x"`, but the
code cuts the split at the second occurrence of `team=`, strips the blank to
the empty string, treats it as falsy and falls back to the user name, giving
`"ml"`. -/
theorem team_extraction_counterexample :
    teamTagValueSpec recTeamTag.query_tag = some "team=x" ∧
    recTeamTag.team = "ml" ∧ ("ml" : String) ≠ "team=x" :=
  ⟨by decide, by decide, by decide⟩

/-- Claim C5 (corrected), amended: the derived team is the trimmed text
taken between the first and second occurrences of `team=` (to the end of the
tag when it occurs once), cut at the next `;`, whenever that text is
non-empty; when `team=` is absent or the extracted text is empty, it falls
back to the portion of the user name before its first underscore, and to the
literal `"unattributed"` when the user name has no underscore. -/
theorem team_extraction_amended (q : QueryRecord) :
    (∀ s, extractTag q.query_tag "team=" = some s → s ≠ "" → q.team = s) ∧
    (extractTag q.query_tag "team=" = none → q.team = teamFallback q) ∧
    (extractTag q.query_tag "team=" = some "" → q.team = teamFallback q) ∧
    teamFallback q = (match splitL ['_'] q.user_name.data with
      | f :: _ :: _ => f.asString
      | _ => "unattributed") := by
  refine ⟨?_, ?_, ?_, rfl⟩
  · intro s hs hne
    unfold QueryRecord.team pyOrStr
    rw [hs]
    simp [hne]
  · intro h
    unfold QueryRecord.team pyOrStr
    rw [h]
  · intro h
    unfold QueryRecord.team pyOrStr
    rw [h]
    simp

/-- Witness for the amended C5 at a concrete tag: `team=analytics;dbt:m`
extracts `"analytics"`, which is non-empty and therefore wins over the
user-name fallback. -/
theorem team_extraction_amended_witness :
    extractTag recTeamOk.query_tag "team=" = some "analytics" ∧
    recTeamOk.team = "analytics" :=
  ⟨by decide, (team_extraction_amended recTeamOk).1 "analytics" (by decide) (by decide)⟩

/-- Claim C6 (corrected), counterexample: the tag `"dbt:;model=abc"` contains
`dbt:`, whose extracted value is the empty string, yet the code returns the
`model=` value `"abc"` because Python's `or` treats the empty string as
falsy. -/
theorem dbt_model_counterexample :
    extractTag recDbtEmpty.query_tag "dbt:" = some "" ∧
    recDbtEmpty.dbt_model = some "abc" ∧ (some "abc" : Option String) ≠ some "" :=
  ⟨by decide, by decide, by decide⟩

/-- Claim C6 (corrected), amended: when the tag contains `dbt:` and its
extracted value is non-empty, `pipelineModel` equals that value even when
`model=` is also present; when `dbt:` is absent or its extracted value is
empty, the `model=` extraction is used; `pipelineModel` is `None` when
neither substring occurs. -/
theorem dbt_model_amended (q : QueryRecord) :
    (∀ s, extractTag q.query_tag "dbt:" = some s → s ≠ "" → q.dbt_model = some s) ∧
    (extractTag q.query_tag "dbt:" = none →
        q.dbt_model = extractTag q.query_tag "model=") ∧
    (extractTag q.query_tag "dbt:" = some "" →
        q.dbt_model = extractTag q.query_tag "model=") ∧
    (extractTag q.query_tag "dbt:" = none → extractTag q.query_tag "model=" = none →
        q.dbt_model = none) := by
  refine ⟨?_, ?_, ?_, ?_⟩
  · intro s hs hne
    unfold QueryRecord.dbt_model pyOrOpt
    rw [hs]
    simp [hne]
  · intro h
    unfold QueryRecord.dbt_model pyOrOpt
    rw [h]
  · intro h
    unfold QueryRecord.dbt_model pyOrOpt
    rw [h]
    simp
  · intro h h'
    unfold QueryRecord.dbt_model pyOrOpt
    rw [h, h']

/-- Witness for the amended C6 at a concrete tag: with both
`dbt:stg_orders` and `model=other` present, the non-empty `dbt:` value
wins. -/
theorem dbt_model_amended_witness :
    extractTag recDbtBoth.query_tag "dbt:" = some "stg_orders" ∧
    recDbtBoth.dbt_model = some "stg_orders" :=
  ⟨by decide, (dbt_model_amended recDbtBoth).1 "stg_orders" (by decide) (by decide)⟩

/-- Claim C7 (confirmed): `POST /v1/breakdown/{dimension}` rejects every
dimension outside the five-name whitelist with a 400 `InvalidDimension`
before the engine is built (the response is the same for every request
body), and for a whitelisted dimension the request proceeds to the engine:
its outcome is the engine's `breakdown`, or the load-validation 400. -/
theorem breakdown_dimension_whitelist (dimension : String) (req : AnalyzeRequest) :
    (dimension ∉ validDims →
        apiBreakdown dimension req = .clientError 400 .invalidDimension) ∧
    (dimension ∈ validDims →
      (∀ err, buildEngine req = .error err →
          apiBreakdown dimension req = .clientError 400 .invalidData) ∧
      (∀ en, buildEngine req = .ok en →
          apiBreakdown dimension req = .ok (dimension, en.breakdown dimension))) := by
  constructor
  · intro h
    simp [apiBreakdown, h]
  · intro h
    constructor
    · intro err he
      simp [apiBreakdown, h, he]
    · intro en he
      simp [apiBreakdown, h, he]

/-- Witness for C7: the dimension `"cost"` is rejected with the
`InvalidDimension` kind, and the whitelisted `"team"` reaches the engine. -/
theorem breakdown_dimension_whitelist_witness :
    apiBreakdown "cost" reqEmpty = .clientError 400 .invalidDimension ∧
    apiBreakdown "team" reqEmpty = .ok ("team", (CostEngine.new 3).breakdown "team") :=
  ⟨(breakdown_dimension_whitelist "cost" reqEmpty).1 (by decide),
   ((breakdown_dimension_whitelist "team" reqEmpty).2 (by decide)).2
     (CostEngine.new 3) (by decide)⟩

/-- Claim C8 (confirmed): `summary()` is a read — it returns the engine state
it received, and running it twice in a row from any state yields the same
output value and the same state. -/
theorem summary_idempotent (e : CostEngine) :
    e.summaryStep.1 = e ∧
    e.summaryStep.1.summaryStep.2 = e.summaryStep.2 ∧
    e.summaryStep.1.summaryStep.1 = e :=
  ⟨rfl, rfl, rfl⟩

/-- Claim C9 (confirmed): `load` evaluates the whole normalizing
comprehension before assigning it, so when any record fails validation the
engine keeps its previous batch and budgets, and the error is surfaced. -/
theorem load_failure_atomic (e : CostEngine) (rs : List RawRecord) (err : LoadError)
    (h : normalizeAll rs = .error err) :
    (e.load rs).1 = e ∧ (e.load rs).1.queries = e.queries ∧
    (e.load rs).1.budgets = e.budgets ∧ (e.load rs).2 = .error err := by
  simp [CostEngine.load, h]

/-- Witness for C9: loading a batch containing a record with no required
fields leaves a populated engine exactly as it was. -/
theorem load_failure_atomic_witness :
    normalizeAll [rawMissing] = .error (.missingField "query_id") ∧
    (engineLoaded.load [rawMissing]).1 = engineLoaded :=
  ⟨by decide,
   (load_failure_atomic engineLoaded [rawMissing] (.missingField "query_id") (by decide)).1⟩

/-- Claim C10 (confirmed): `set_budget(team, amount)` overwrites exactly that
team's entry (last write wins), leaving the loaded batch, the credit price
and every other team's budget untouched. -/
theorem set_budget_frame (e : CostEngine) (t : String) (a : ℚ) :
    (e.set_budget t a).credit_price = e.credit_price ∧
    (e.set_budget t a).queries = e.queries ∧
    lookupD (e.set_budget t a).budgets t = some a ∧
    ∀ t', t' ≠ t → lookupD (e.set_budget t a).budgets t' = lookupD e.budgets t' :=
  ⟨rfl, rfl, lookupD_dictSet_self t a e.budgets,
   fun t' h => lookupD_dictSet_other t t' a h e.budgets⟩

/-- Witness for C10: overwriting the `"ml"` budget on an engine that already
budgets `"analytics"` updates `"ml"` and leaves `"analytics"` alone. -/
theorem set_budget_frame_witness :
    lookupD ((engineLoaded.set_budget "ml" 5).budgets) "ml" = some 5 ∧
    lookupD ((engineLoaded.set_budget "ml" 5).budgets) "analytics" =
      lookupD engineLoaded.budgets "analytics" :=
  ⟨(set_budget_frame engineLoaded "ml" 5).2.2.1,
   (set_budget_frame engineLoaded "ml" 5).2.2.2 "analytics" (by decide)⟩

/-- Claim C2 (confirmed): `anomalies(z)` is empty on fewer than 3 records and
when the sample standard deviation is exactly zero; otherwise it consists of
exactly the records whose one-sided z-score `(costUsd - mean)/stddev` (with
Bessel-corrected sample standard deviation) strictly exceeds `z`, sorted
descending by the reported z-score, each entry carrying query id, cost,
the z-score rounded half-to-even to 2 decimals, team and warehouse
(see `anomaliesActiveSpec`). -/
theorem anomalies_spec (e : CostEngine) (z : ℚ) :
    (e.queries.length < 3 → e.anomalies z = []) ∧
    (Real.sqrt ((sampleVar (e.queries.map QueryRecord.cost_usd) : ℚ) : ℝ) = 0 →
        e.anomalies z = []) ∧
    (3 ≤ e.queries.length → sampleVar (e.queries.map QueryRecord.cost_usd) ≠ 0 →
        anomaliesActiveSpec e z) := by
  refine ⟨?_, ?_, ?_⟩
  · intro h
    rw [CostEngine.anomalies, if_pos h]
  · intro h
    by_cases hlen : e.queries.length < 3
    · rw [CostEngine.anomalies, if_pos hlen]
    · push_neg at hlen
      have hlen2 : 2 ≤ (e.queries.map QueryRecord.cost_usd).length := by
        rw [List.length_map]
        omega
      have hnn : 0 ≤ sampleVar (e.queries.map QueryRecord.cost_usd) :=
        sampleVar_nonneg _ hlen2
      have hle := Real.sqrt_eq_zero'.mp h
      have hle' : sampleVar (e.queries.map QueryRecord.cost_usd) ≤ 0 := by
        exact_mod_cast hle
      have hv0 : sampleVar (e.queries.map QueryRecord.cost_usd) = 0 :=
        le_antisymm hle' hnn
      simp only [CostEngine.anomalies]
      rw [if_neg (not_lt.mpr hlen), if_pos hv0]
  · intro hlen hvne
    have hlen2 : 2 ≤ (e.queries.map QueryRecord.cost_usd).length := by
      rw [List.length_map]
      omega
    have hvpos : 0 < sampleVar (e.queries.map QueryRecord.cost_usd) :=
      lt_of_le_of_ne (sampleVar_nonneg _ hlen2) (Ne.symm hvne)
    have hanom : e.anomalies z =
        ((e.queries.filter (fun q => zGTsqrt
            (q.cost_usd - listMean (e.queries.map QueryRecord.cost_usd)) z
            (sampleVar (e.queries.map QueryRecord.cost_usd)))).map
          (anomalyEntry (listMean (e.queries.map QueryRecord.cost_usd))
            (sampleVar (e.queries.map QueryRecord.cost_usd)))).insertionSort
          (fun a b => b.z_score ≤ a.z_score) := by
      simp only [CostEngine.anomalies]
      rw [if_neg (not_lt.mpr hlen), if_neg hvne]
    simp only [anomaliesActiveSpec]
    refine ⟨?_, ?_, ?_, fun q => rfl, ?_⟩
    · rw [hanom]
      exact List.perm_insertionSort _ _
    · intro q
      rw [zGT_iff _ _ _ hvpos, Rat.cast_sub]
    · letI : IsTotal AnomalyEntry (fun a b => b.z_score ≤ a.z_score) :=
        ⟨fun a b => le_total b.z_score a.z_score⟩
      letI : IsTrans AnomalyEntry (fun a b => b.z_score ≤ a.z_score) :=
        ⟨fun a b c hab hbc => le_trans hbc hab⟩
      rw [hanom]
      exact List.sorted_insertionSort _ _
    · intro q
      rw [zRound2_eq _ _ hvpos, Rat.cast_sub]



/-- Witness for C2: four queries with costs 0, 0, 0, 6 (mean 3/2, sample
variance 9) at threshold 1 satisfy the active-case conclusions. -/
theorem anomalies_spec_witness : anomaliesActiveSpec engineSpread 1 := by
  have hcosts : engineSpread.queries.map QueryRecord.cost_usd = [0, 0, 0, 6] := by
    simp only [engineSpread, List.map_cons, List.map_nil, QueryRecord.cost_usd]
    norm_num [pyRound, rne, Int.fract]
  refine (anomalies_spec engineSpread 1).2.2 (by decide) ?_
  rw [hcosts]
  norm_num [sampleVar, listMean]

end WareCost
